import Mathlib

/-!
Shallow embedding of `main.go` from the `jfrog` repository: a tool that
queries a JFrog Artifactory server and reports the items with the two
highest distinct download counts (ties included), with a small
configuration-file scanner and two output renderers.

Pure data and control logic are translated directly; the network call,
file IO and JSON (de)serialisation are external collaborators and are
modelled only at their interface (the values constructed / the guards
executed before them).
-/

set_option maxRecDepth 4096

/-- `JFrogStats` from main.go: the per-item download counter.
Go's `uint64` is modelled as `Nat`; the program only compares counters,
never does wrapping arithmetic on them. -/
structure JFrogStats where
  Downloads : Nat
deriving DecidableEq, Repr

/-- `JFrogItem` from main.go: one catalog entry. -/
structure JFrogItem where
  Repo : String
  Path : String
  Name : String
  Stats : List JFrogStats
deriving DecidableEq, Repr

/-- `JFrogRange` from main.go: pagination metadata. -/
structure JFrogRange where
  Start : Nat
  End : Nat
  Total : Nat
deriving DecidableEq, Repr

/-- `JFrogResult` from main.go: one query's result set. -/
structure JFrogResult where
  Items : List JFrogItem
  Range : JFrogRange
deriving DecidableEq, Repr

/-- `JFrogTopResults` from main.go: the JSON output document. -/
structure JFrogTopResults where
  Top1 : JFrogResult
  Top2 : JFrogResult
deriving DecidableEq, Repr

/-- `JFrogConfig` from main.go. -/
structure JFrogConfig where
  api_conf : String
  api_host : String
  api_key : String
  api_json : String
deriving DecidableEq, Repr

/-- The expression `item.Stats[0].Downloads` used throughout main.go.
Go would panic on an empty `Stats` slice; theorems about genuine inputs
carry the hypothesis that every item has a nonempty `Stats` list, under
which this total model agrees with the Go expression. -/
def statDownloads (item : JFrogItem) : Nat :=
  (item.Stats.headD { Downloads := 0 }).Downloads

/-- `getDownloads` from main.go (lines 152-161): return the first
positive download count in the list, else 0. -/
def getDownloads : List JFrogItem → Nat
  | [] => 0
  | item :: rest =>
    if statDownloads item > 0 then statDownloads item else getDownloads rest

/-- The synthetic placeholder item seeding each rank group in
`getTopDownloads` (main.go lines 171-174). -/
def placeholderItem : JFrogItem :=
  { Repo := "", Path := "", Name := "", Stats := [{ Downloads := 0 }] }

/-- The loop body of `getTopDownloads` (main.go lines 176-196): one
input item updates the pair (top1, top2) of rank groups. -/
def topStep (s : List JFrogItem × List JFrogItem) (item : JFrogItem) :
    List JFrogItem × List JFrogItem :=
  let downloads := statDownloads item
  let top1_downloads := getDownloads s.1
  let top2_downloads := getDownloads s.2
  if downloads > top1_downloads then
    ([item], s.2)
  else if downloads = top1_downloads then
    (s.1 ++ [item], s.2)
  else if downloads > top2_downloads ∧ downloads ≠ top1_downloads then
    (s.1, [item])
  else if downloads = top2_downloads ∧ downloads ≠ top1_downloads then
    (s.1, s.2 ++ [item])
  else
    s

/-- `getTopDownloads` from main.go (lines 168-200), with the channel
plumbing stripped: consume one result set, return the two rank groups
(top1 first, top2 second). -/
def getTopDownloads (results : JFrogResult) : List JFrogItem × List JFrogItem :=
  results.Items.foldl topStep ([placeholderItem], [placeholderItem])

/-- Maximum download count present in a list of items (0 for the empty
list); the spec's notion of the top count. -/
def maxDownloads (items : List JFrogItem) : Nat :=
  items.foldl (fun a i => max a (statDownloads i)) 0

/-- Abstraction of one `topStep` on the pair of shared counts only. -/
def pairStep (p : Nat × Nat) (d : Nat) : Nat × Nat :=
  (max p.1 d, if d < p.1 then max p.2 d else p.2)

/-- Modelled from the spec: the second-highest distinct download count
present in the input, i.e. the largest count strictly below the maximum
(0 when no such count exists).  Used only to compare the spec's claim
with what the code computes. -/
def secondHighestDistinct (items : List JFrogItem) : Nat :=
  ((items.map statDownloads).filter (fun d => d < maxDownloads items)).foldl max 0

/-- A download count `d` such that some item with count `d` appears
strictly after an item with a strictly larger count.  The reducer's
final top2 shared count is exactly the largest such `d` (or 0). -/
def LaterSmallerCount (l : List JFrogItem) (d : Nat) : Prop :=
  ∃ pre x post, l = pre ++ x :: post ∧ statDownloads x = d ∧
    ∃ y ∈ pre, d < statDownloads y

/-- `LaterSmallerCount` relativised to a running maximum `m` carried in
from an already-scanned prefix. -/
def RunnerCand (m : Nat) (l : List JFrogItem) (d : Nat) : Prop :=
  ∃ pre x post, l = pre ++ x :: post ∧ statDownloads x = d ∧
    (d < m ∨ ∃ y ∈ pre, d < statDownloads y)

lemma getDownloads_singleton (i : JFrogItem) : getDownloads [i] = statDownloads i := by
  by_cases h : statDownloads i > 0
  · simp [getDownloads, h]
  · simp only [getDownloads, if_neg h]
    omega

lemma getDownloads_append (l l' : List JFrogItem) :
    getDownloads (l ++ l') =
      if getDownloads l = 0 then getDownloads l' else getDownloads l := by
  induction l with
  | nil => simp [getDownloads]
  | cons i t ih =>
    by_cases h : statDownloads i > 0
    · simp only [List.cons_append, getDownloads, if_pos h]
      rw [if_neg (by omega)]
    · simp only [List.cons_append, getDownloads, if_neg h]
      exact ih

lemma getDownloads_snoc (l : List JFrogItem) (i : JFrogItem) :
    getDownloads (l ++ [i]) =
      if getDownloads l = 0 then statDownloads i else getDownloads l := by
  rw [getDownloads_append, getDownloads_singleton]

/-- Shared count of top1 after one step: the running maximum. -/
lemma topStep_fst_down (s : List JFrogItem × List JFrogItem) (i : JFrogItem) :
    getDownloads (topStep s i).1 = max (getDownloads s.1) (statDownloads i) := by
  simp only [topStep]
  split_ifs <;>
    (try simp only [getDownloads_singleton, getDownloads_snoc]) <;>
    (try split_ifs) <;> omega

/-- Shared count of top2 after one step. -/
lemma topStep_snd_down (s : List JFrogItem × List JFrogItem) (i : JFrogItem) :
    getDownloads (topStep s i).2 =
      if statDownloads i < getDownloads s.1 then
        max (getDownloads s.2) (statDownloads i)
      else getDownloads s.2 := by
  simp only [topStep]
  split_ifs <;>
    (try simp only [getDownloads_singleton, getDownloads_snoc]) <;>
    (try split_ifs) <;> omega

/-- Fold of `pairStep` over the items' download counts. -/
def downsFold (l : List JFrogItem) (p : Nat × Nat) : Nat × Nat :=
  l.foldl (fun q i => pairStep q (statDownloads i)) p

lemma downsFold_nil (p : Nat × Nat) : downsFold [] p = p := rfl

lemma downsFold_cons (i : JFrogItem) (t : List JFrogItem) (p : Nat × Nat) :
    downsFold (i :: t) p = downsFold t (pairStep p (statDownloads i)) := rfl

lemma pairStep_def (m r d : Nat) :
    pairStep (m, r) d = (max m d, if d < m then max r d else r) := rfl

/-- The reducer's two shared counts are computed by the pure `pairStep`
fold over the download counts alone. -/
lemma foldl_topStep_downs (l : List JFrogItem) :
    ∀ s : List JFrogItem × List JFrogItem,
      (getDownloads (l.foldl topStep s).1, getDownloads (l.foldl topStep s).2) =
        downsFold l (getDownloads s.1, getDownloads s.2) := by
  induction l with
  | nil => intro s; rfl
  | cons i t ih =>
    intro s
    rw [List.foldl_cons, ih (topStep s i), topStep_fst_down, topStep_snd_down,
      downsFold_cons, pairStep_def]

lemma downsFold_fst (l : List JFrogItem) :
    ∀ m r, (downsFold l (m, r)).1 = l.foldl (fun a i => max a (statDownloads i)) m := by
  induction l with
  | nil => intro m r; rfl
  | cons i t ih =>
    intro m r
    rw [downsFold_cons, pairStep_def, List.foldl_cons]
    exact ih _ _

lemma foldl_max_eq_zero (l : List JFrogItem) :
    ∀ a, l.foldl (fun a i => max a (statDownloads i)) a = 0 ↔
      a = 0 ∧ ∀ i ∈ l, statDownloads i = 0 := by
  induction l with
  | nil => intro a; simp
  | cons i t ih =>
    intro a
    rw [List.foldl_cons, ih, Nat.max_eq_zero_iff]
    constructor
    · rintro ⟨⟨ha, hi⟩, ht⟩
      refine ⟨ha, ?_⟩
      intro j hj
      rcases List.mem_cons.mp hj with h | h
      · rw [h]; exact hi
      · exact ht j h
    · rintro ⟨ha, hall⟩
      refine ⟨⟨ha, hall i (List.mem_cons_self i t)⟩, ?_⟩
      intro j hj
      exact hall j (List.mem_cons_of_mem i hj)

lemma getDownloads_placeholder : getDownloads [placeholderItem] = 0 := rfl

lemma getTopDownloads_downs (results : JFrogResult) :
    (getDownloads (getTopDownloads results).1,
      getDownloads (getTopDownloads results).2) =
        downsFold results.Items (0, 0) := by
  have h := foldl_topStep_downs results.Items ([placeholderItem], [placeholderItem])
  rw [getDownloads_placeholder] at h
  exact h

/-- C5: the final top1 shared count is the maximum download count
present in the input result set, and it is 0 exactly when the input is
empty or every input item's count is 0. -/
theorem claim5_theorem (results : JFrogResult)
    (h : ∀ i ∈ results.Items, i.Stats ≠ []) :
    getDownloads (getTopDownloads results).1 = maxDownloads results.Items ∧
      (getDownloads (getTopDownloads results).1 = 0 ↔
        results.Items = [] ∨ ∀ i ∈ results.Items, statDownloads i = 0) := by
  have h1 : getDownloads (getTopDownloads results).1 = maxDownloads results.Items := by
    have h2 := congrArg Prod.fst (getTopDownloads_downs results)
    rw [downsFold_fst] at h2
    exact h2
  refine ⟨h1, ?_⟩
  rw [h1]
  unfold maxDownloads
  rw [foldl_max_eq_zero]
  constructor
  · rintro ⟨-, hall⟩
    exact Or.inr hall
  · rintro (hnil | hall)
    · refine ⟨rfl, ?_⟩
      intro i hi
      rw [hnil] at hi
      cases hi
    · exact ⟨rfl, hall⟩

/-- Sample range block for concrete result sets. -/
def exRange : JFrogRange := { Start := 0, End := 0, Total := 0 }

/-- Build a concrete item with one stats entry. -/
def mkItem (nm : String) (d : Nat) : JFrogItem :=
  { Repo := "repo", Path := "path", Name := nm, Stats := [{ Downloads := d }] }

def exC5 : JFrogResult := { Items := [mkItem "a" 5, mkItem "b" 3], Range := exRange }

theorem claim5_witness :
    (∀ i ∈ exC5.Items, i.Stats ≠ []) ∧
      (getDownloads (getTopDownloads exC5).1 = maxDownloads exC5.Items ∧
        (getDownloads (getTopDownloads exC5).1 = 0 ↔
          exC5.Items = [] ∨ ∀ i ∈ exC5.Items, statDownloads i = 0)) :=
  ⟨by decide, claim5_theorem exC5 (by decide)⟩

def exC6 : JFrogResult :=
  { Items := [mkItem "a" 5, mkItem "b" 5, mkItem "c" 3, mkItem "d" 5, mkItem "e" 1],
    Range := exRange }

/-- C6: on input download counts [5,5,3,5,1] the reducer returns the
three count-5 items, in input order, as top1, and the single count-3
item as top2. -/
theorem claim6_theorem :
    getTopDownloads exC6 =
      ([mkItem "a" 5, mkItem "b" 5, mkItem "d" 5], [mkItem "c" 3]) := by
  decide

/-- C10: an item whose download count is 0, processed while top1's
shared count is still 0 (the placeholder-only state), is appended to
top1 next to the synthetic placeholder instead of being discarded, so
it would be reported as a member of the top1 group. -/
theorem claim10_theorem (s : List JFrogItem × List JFrogItem) (item : JFrogItem)
    (h1 : getDownloads s.1 = 0) (h2 : statDownloads item = 0) :
    topStep s item = (s.1 ++ [item], s.2) ∧ item ∈ (topStep s item).1 := by
  have hstep : topStep s item = (s.1 ++ [item], s.2) := by
    simp [topStep, h1, h2]
  refine ⟨hstep, ?_⟩
  rw [hstep]
  simp

def zeroItem : JFrogItem :=
  { Repo := "r", Path := "p", Name := "z", Stats := [{ Downloads := 0 }] }

theorem claim10_witness :
    getDownloads [placeholderItem] = 0 ∧ statDownloads zeroItem = 0 ∧
      (topStep ([placeholderItem], [placeholderItem]) zeroItem
          = ([placeholderItem, zeroItem], [placeholderItem]) ∧
        zeroItem ∈ (topStep ([placeholderItem], [placeholderItem]) zeroItem).1) :=
  ⟨rfl, rfl,
    claim10_theorem ([placeholderItem], [placeholderItem]) zeroItem rfl rfl⟩

lemma runnerCand_nil (m d : Nat) : ¬ RunnerCand m [] d := by
  rintro ⟨pre, x, post, heq, -, -⟩
  cases pre <;> simp at heq

lemma runnerCand_cons (m : Nat) (i : JFrogItem) (t : List JFrogItem) (d : Nat) :
    RunnerCand m (i :: t) d ↔
      (d = statDownloads i ∧ d < m) ∨
        RunnerCand (max m (statDownloads i)) t d := by
  constructor
  · rintro ⟨pre, x, post, heq, hdx, hcond⟩
    cases pre with
    | nil =>
      simp only [List.nil_append, List.cons.injEq] at heq
      rcases hcond with hm | ⟨y, hy, -⟩
      · exact Or.inl ⟨by rw [← hdx, heq.1], hm⟩
      · cases hy
    | cons p ps =>
      simp only [List.cons_append, List.cons.injEq] at heq
      refine Or.inr ⟨ps, x, post, heq.2, hdx, ?_⟩
      rcases hcond with hm | ⟨y, hy, hdy⟩
      · exact Or.inl (lt_max_of_lt_left hm)
      · rcases List.mem_cons.mp hy with hyi | hyp
        · refine Or.inl (lt_max_of_lt_right ?_)
          rw [heq.1, ← hyi]
          exact hdy
        · exact Or.inr ⟨y, hyp, hdy⟩
  · rintro (⟨hd, hm⟩ | ⟨pre, x, post, heq, hdx, hcond⟩)
    · exact ⟨[], i, t, rfl, hd.symm, Or.inl hm⟩
    · refine ⟨i :: pre, x, post, by rw [heq, List.cons_append], hdx, ?_⟩
      rcases hcond with hmm | ⟨y, hy, hdy⟩
      · rcases lt_max_iff.mp hmm with h | h
        · exact Or.inl h
        · exact Or.inr ⟨i, List.mem_cons_self i pre, h⟩
      · exact Or.inr ⟨y, List.mem_cons_of_mem i hy, hdy⟩

lemma downsFold_snd_le (l : List JFrogItem) :
    ∀ m r, r ≤ (downsFold l (m, r)).2 := by
  induction l with
  | nil => intro m r; exact le_refl r
  | cons i t ih =>
    intro m r
    rw [downsFold_cons, pairStep_def]
    have h1 : r ≤ (if statDownloads i < m then max r (statDownloads i) else r) := by
      split_ifs
      · exact le_max_left r _
      · exact le_refl r
    exact le_trans h1 (ih _ _)

lemma downsFold_snd_ub (l : List JFrogItem) :
    ∀ m r d, RunnerCand m l d → d ≤ (downsFold l (m, r)).2 := by
  induction l with
  | nil => intro m r d h; exact absurd h (runnerCand_nil m d)
  | cons i t ih =>
    intro m r d h
    rw [runnerCand_cons] at h
    rw [downsFold_cons, pairStep_def]
    rcases h with ⟨hd, hm⟩ | h2
    · have h1 : d ≤ (if statDownloads i < m then max r (statDownloads i) else r) := by
        rw [if_pos (hd ▸ hm)]
        rw [hd]
        exact le_max_right r _
      exact le_trans h1 (downsFold_snd_le t _ _)
    · exact ih _ _ _ h2

lemma downsFold_snd_mem (l : List JFrogItem) :
    ∀ m r, (downsFold l (m, r)).2 = r ∨ RunnerCand m l ((downsFold l (m, r)).2) := by
  induction l with
  | nil => intro m r; exact Or.inl rfl
  | cons i t ih =>
    intro m r
    rw [downsFold_cons, pairStep_def]
    by_cases hm : statDownloads i < m
    · rw [if_pos hm]
      rcases ih (max m (statDownloads i)) (max r (statDownloads i)) with h | h
      · rcases le_total (statDownloads i) r with hle | hle
        · left
          rw [h, Nat.max_eq_left hle]
        · right
          rw [runnerCand_cons]
          rw [h, Nat.max_eq_right hle]
          exact Or.inl ⟨rfl, hm⟩
      · right
        rw [runnerCand_cons]
        exact Or.inr h
    · rw [if_neg hm]
      rcases ih (max m (statDownloads i)) r with h | h
      · exact Or.inl h
      · right
        rw [runnerCand_cons]
        exact Or.inr h

lemma runnerCand_zero (l : List JFrogItem) (d : Nat) :
    RunnerCand 0 l d ↔ LaterSmallerCount l d := by
  constructor
  · rintro ⟨pre, x, post, heq, hdx, hcond⟩
    rcases hcond with hm | hy
    · exact absurd hm (Nat.not_lt_zero d)
    · exact ⟨pre, x, post, heq, hdx, hy⟩
  · rintro ⟨pre, x, post, heq, hdx, hy⟩
    exact ⟨pre, x, post, heq, hdx, Or.inr hy⟩

def exC1 : JFrogResult := { Items := [mkItem "a" 3, mkItem "b" 5], Range := exRange }

/-- C1 counterexample: on input download counts [3,5] the input has two
distinct nonzero counts and its second-highest distinct count is 3, yet
the reducer's final top2 shared count is 0 — the count-3 item was
evicted from top1 by the later maximum and never demoted to top2. -/
theorem claim1_counterexample :
    getDownloads (getTopDownloads exC1).2 = 0 ∧
      maxDownloads exC1.Items = 5 ∧
      secondHighestDistinct exC1.Items = 3 ∧
      secondHighestDistinct exC1.Items ≠ getDownloads (getTopDownloads exC1).2 := by
  decide

/-- C1 (amended): the final top2 shared count `r` is the largest
download count carried by an item that appears strictly after some item
with a strictly greater count: `r` bounds every such count from above,
and `r` is either 0 or itself such a count.  (It equals the
second-highest distinct input count only when such an item realises it;
a count seen solely before the first maximum is lost.) -/
theorem claim1_theorem (results : JFrogResult)
    (h : ∀ i ∈ results.Items, i.Stats ≠ []) :
    (∀ d, LaterSmallerCount results.Items d →
        d ≤ getDownloads (getTopDownloads results).2) ∧
      (getDownloads (getTopDownloads results).2 = 0 ∨
        LaterSmallerCount results.Items
          (getDownloads (getTopDownloads results).2)) := by
  have hsnd : getDownloads (getTopDownloads results).2
      = (downsFold results.Items (0, 0)).2 :=
    congrArg Prod.snd (getTopDownloads_downs results)
  constructor
  · intro d hd
    rw [hsnd]
    exact downsFold_snd_ub results.Items 0 0 d ((runnerCand_zero _ _).mpr hd)
  · rcases downsFold_snd_mem results.Items 0 0 with h0 | hc
    · left
      rw [hsnd]
      exact h0
    · right
      rw [hsnd]
      exact (runnerCand_zero _ _).mp hc

def exC1w : JFrogResult :=
  { Items := [mkItem "a" 5, mkItem "b" 3, mkItem "c" 4], Range := exRange }

theorem claim1_witness :
    (∀ i ∈ exC1w.Items, i.Stats ≠ []) ∧
      ((∀ d, LaterSmallerCount exC1w.Items d →
          d ≤ getDownloads (getTopDownloads exC1w).2) ∧
        (getDownloads (getTopDownloads exC1w).2 = 0 ∨
          LaterSmallerCount exC1w.Items
            (getDownloads (getTopDownloads exC1w).2))) :=
  ⟨by decide, claim1_theorem exC1w (by decide)⟩

lemma topStep_case1 (s : List JFrogItem × List JFrogItem) (i : JFrogItem)
    (c1 : statDownloads i > getDownloads s.1) : topStep s i = ([i], s.2) := by
  simp only [topStep]
  rw [if_pos c1]

lemma topStep_case2 (s : List JFrogItem × List JFrogItem) (i : JFrogItem)
    (c1 : ¬ statDownloads i > getDownloads s.1)
    (c2 : statDownloads i = getDownloads s.1) : topStep s i = (s.1 ++ [i], s.2) := by
  simp only [topStep]
  rw [if_neg c1, if_pos c2]

lemma topStep_case3 (s : List JFrogItem × List JFrogItem) (i : JFrogItem)
    (c1 : ¬ statDownloads i > getDownloads s.1)
    (c2 : ¬ statDownloads i = getDownloads s.1)
    (c3 : statDownloads i > getDownloads s.2 ∧ statDownloads i ≠ getDownloads s.1) :
    topStep s i = (s.1, [i]) := by
  simp only [topStep]
  rw [if_neg c1, if_neg c2, if_pos c3]

lemma topStep_case4 (s : List JFrogItem × List JFrogItem) (i : JFrogItem)
    (c1 : ¬ statDownloads i > getDownloads s.1)
    (c2 : ¬ statDownloads i = getDownloads s.1)
    (c3 : ¬ (statDownloads i > getDownloads s.2 ∧ statDownloads i ≠ getDownloads s.1))
    (c4 : statDownloads i = getDownloads s.2 ∧ statDownloads i ≠ getDownloads s.1) :
    topStep s i = (s.1, s.2 ++ [i]) := by
  simp only [topStep]
  rw [if_neg c1, if_neg c2, if_neg c3, if_pos c4]

lemma topStep_case5 (s : List JFrogItem × List JFrogItem) (i : JFrogItem)
    (c1 : ¬ statDownloads i > getDownloads s.1)
    (c2 : ¬ statDownloads i = getDownloads s.1)
    (c3 : ¬ (statDownloads i > getDownloads s.2 ∧ statDownloads i ≠ getDownloads s.1))
    (c4 : ¬ (statDownloads i = getDownloads s.2 ∧ statDownloads i ≠ getDownloads s.1)) :
    topStep s i = s := by
  simp only [topStep]
  rw [if_neg c1, if_neg c2, if_neg c3, if_neg c4]

/-- Each step adds at most the processed item to the two groups. -/
lemma topStep_mass (s : List JFrogItem × List JFrogItem) (i : JFrogItem) :
    ((topStep s i).1 : Multiset JFrogItem) + ((topStep s i).2 : Multiset JFrogItem)
      ≤ (s.1 : Multiset JFrogItem) + (s.2 : Multiset JFrogItem) + {i} := by
  by_cases c1 : statDownloads i > getDownloads s.1
  · rw [topStep_case1 s i c1]
    have hre : (↑s.1 + ↑s.2 + {i} : Multiset JFrogItem) = ({i} + ↑s.2) + ↑s.1 := by abel
    rw [hre]
    simp only [Multiset.coe_singleton]
    exact Multiset.le_add_right _ _
  · by_cases c2 : statDownloads i = getDownloads s.1
    · simp only [topStep_case2 s i c1 c2]
      refine le_of_eq ?_
      rw [← Multiset.coe_add, Multiset.coe_singleton]
      abel
    · by_cases c3 : statDownloads i > getDownloads s.2 ∧ statDownloads i ≠ getDownloads s.1
      · rw [topStep_case3 s i c1 c2 c3]
        have hre : (↑s.1 + ↑s.2 + {i} : Multiset JFrogItem) = (↑s.1 + {i}) + ↑s.2 := by abel
        rw [hre]
        simp only [Multiset.coe_singleton]
        exact Multiset.le_add_right _ _
      · by_cases c4 : statDownloads i = getDownloads s.2 ∧ statDownloads i ≠ getDownloads s.1
        · simp only [topStep_case4 s i c1 c2 c3 c4]
          refine le_of_eq ?_
          rw [← Multiset.coe_add, Multiset.coe_singleton]
          abel
        · rw [topStep_case5 s i c1 c2 c3 c4]
          exact Multiset.le_add_right _ _

lemma foldl_topStep_mass (l : List JFrogItem) :
    ∀ s : List JFrogItem × List JFrogItem,
      ((l.foldl topStep s).1 : Multiset JFrogItem) +
          ((l.foldl topStep s).2 : Multiset JFrogItem)
        ≤ ↑s.1 + ↑s.2 + (l : Multiset JFrogItem) := by
  induction l with
  | nil =>
    intro s
    simp
  | cons i t ih =>
    intro s
    rw [List.foldl_cons]
    refine le_trans (ih (topStep s i)) ?_
    have h1 := topStep_mass s i
    have h2 : ((topStep s i).1 : Multiset JFrogItem) + ((topStep s i).2 : Multiset JFrogItem)
        + (↑t : Multiset JFrogItem) ≤ (↑s.1 + ↑s.2 + {i}) + ↑t :=
      add_le_add_right h1 _
    refine le_trans h2 (le_of_eq ?_)
    rw [← Multiset.cons_coe, ← Multiset.singleton_add]
    abel

/-- Both rank groups only hold items whose count is at most the group's
shared count. -/
def GroupsInv (s : List JFrogItem × List JFrogItem) : Prop :=
  (∀ y ∈ s.1, statDownloads y ≤ getDownloads s.1) ∧
    (∀ y ∈ s.2, statDownloads y ≤ getDownloads s.2)

/-- An item is in one of the groups, or its count is already below the
top1 shared count. -/
def Kept (s : List JFrogItem × List JFrogItem) (x : JFrogItem) : Prop :=
  x ∈ s.1 ∨ x ∈ s.2 ∨ statDownloads x < getDownloads s.1

lemma topStep_inv (s : List JFrogItem × List JFrogItem) (i : JFrogItem)
    (h : GroupsInv s) : GroupsInv (topStep s i) := by
  obtain ⟨h1, h2⟩ := h
  by_cases c1 : statDownloads i > getDownloads s.1
  · rw [topStep_case1 s i c1]
    constructor
    · intro y hy
      rw [List.mem_singleton.mp hy, getDownloads_singleton]
    · exact h2
  · by_cases c2 : statDownloads i = getDownloads s.1
    · rw [topStep_case2 s i c1 c2]
      have hgd : getDownloads (s.1 ++ [i]) = getDownloads s.1 := by
        rw [getDownloads_snoc]
        split_ifs with h0
        · omega
        · rfl
      constructor
      · intro y hy
        show statDownloads y ≤ getDownloads (s.1 ++ [i])
        rw [hgd]
        rcases List.mem_append.mp hy with hys | hyi
        · exact h1 y hys
        · rw [List.mem_singleton.mp hyi]
          omega
      · exact h2
    · by_cases c3 : statDownloads i > getDownloads s.2 ∧ statDownloads i ≠ getDownloads s.1
      · rw [topStep_case3 s i c1 c2 c3]
        constructor
        · exact h1
        · intro y hy
          rw [List.mem_singleton.mp hy, getDownloads_singleton]
      · by_cases c4 : statDownloads i = getDownloads s.2 ∧ statDownloads i ≠ getDownloads s.1
        · rw [topStep_case4 s i c1 c2 c3 c4]
          have hgd : getDownloads (s.2 ++ [i]) = getDownloads s.2 := by
            rw [getDownloads_snoc]
            split_ifs with h0
            · omega
            · rfl
          constructor
          · exact h1
          · intro y hy
            show statDownloads y ≤ getDownloads (s.2 ++ [i])
            rw [hgd]
            rcases List.mem_append.mp hy with hys | hyi
            · exact h2 y hys
            · rw [List.mem_singleton.mp hyi]
              omega
        · rw [topStep_case5 s i c1 c2 c3 c4]
          exact ⟨h1, h2⟩

lemma topStep_new (s : List JFrogItem × List JFrogItem) (i : JFrogItem) :
    Kept (topStep s i) i := by
  by_cases c1 : statDownloads i > getDownloads s.1
  · rw [topStep_case1 s i c1]
    exact Or.inl (List.mem_singleton_self i)
  · by_cases c2 : statDownloads i = getDownloads s.1
    · rw [topStep_case2 s i c1 c2]
      exact Or.inl (List.mem_append_right s.1 (List.mem_singleton_self i))
    · by_cases c3 : statDownloads i > getDownloads s.2 ∧ statDownloads i ≠ getDownloads s.1
      · rw [topStep_case3 s i c1 c2 c3]
        exact Or.inr (Or.inl (List.mem_singleton_self i))
      · by_cases c4 : statDownloads i = getDownloads s.2 ∧ statDownloads i ≠ getDownloads s.1
        · rw [topStep_case4 s i c1 c2 c3 c4]
          exact Or.inr (Or.inl (List.mem_append_right s.2 (List.mem_singleton_self i)))
        · rw [topStep_case5 s i c1 c2 c3 c4]
          exact Or.inr (Or.inr (by omega))

lemma topStep_keep (s : List JFrogItem × List JFrogItem) (i x : JFrogItem)
    (h : GroupsInv s) (hx : Kept s x) : Kept (topStep s i) x := by
  obtain ⟨h1, h2⟩ := h
  by_cases c1 : statDownloads i > getDownloads s.1
  · rw [topStep_case1 s i c1]
    rcases hx with hm | hm | hm
    · refine Or.inr (Or.inr ?_)
      rw [getDownloads_singleton]
      exact lt_of_le_of_lt (h1 x hm) c1
    · exact Or.inr (Or.inl hm)
    · refine Or.inr (Or.inr ?_)
      rw [getDownloads_singleton]
      omega
  · by_cases c2 : statDownloads i = getDownloads s.1
    · rw [topStep_case2 s i c1 c2]
      have hgd : getDownloads (s.1 ++ [i]) = getDownloads s.1 := by
        rw [getDownloads_snoc]
        split_ifs with h0
        · omega
        · rfl
      rcases hx with hm | hm | hm
      · exact Or.inl (List.mem_append_left [i] hm)
      · exact Or.inr (Or.inl hm)
      · refine Or.inr (Or.inr ?_)
        show statDownloads x < getDownloads (s.1 ++ [i])
        rw [hgd]
        exact hm
    · by_cases c3 : statDownloads i > getDownloads s.2 ∧ statDownloads i ≠ getDownloads s.1
      · rw [topStep_case3 s i c1 c2 c3]
        rcases hx with hm | hm | hm
        · exact Or.inl hm
        · refine Or.inr (Or.inr ?_)
          have hle := h2 x hm
          show statDownloads x < getDownloads s.1
          omega
        · exact Or.inr (Or.inr hm)
      · by_cases c4 : statDownloads i = getDownloads s.2 ∧ statDownloads i ≠ getDownloads s.1
        · rw [topStep_case4 s i c1 c2 c3 c4]
          rcases hx with hm | hm | hm
          · exact Or.inl hm
          · exact Or.inr (Or.inl (List.mem_append_left [i] hm))
          · exact Or.inr (Or.inr hm)
        · rw [topStep_case5 s i c1 c2 c3 c4]
          exact hx

lemma foldl_topStep_inv (l : List JFrogItem) :
    ∀ s, GroupsInv s → GroupsInv (l.foldl topStep s) := by
  induction l with
  | nil => intro s hs; exact hs
  | cons i t ih =>
    intro s hs
    rw [List.foldl_cons]
    exact ih (topStep s i) (topStep_inv s i hs)

lemma foldl_topStep_keep (l : List JFrogItem) :
    ∀ s x, GroupsInv s → Kept s x → Kept (l.foldl topStep s) x := by
  induction l with
  | nil => intro s x _ hx; exact hx
  | cons i t ih =>
    intro s x hs hx
    rw [List.foldl_cons]
    exact ih (topStep s i) x (topStep_inv s i hs) (topStep_keep s i x hs hx)

lemma foldl_topStep_all (l : List JFrogItem) :
    ∀ s, GroupsInv s → ∀ x ∈ l, Kept (l.foldl topStep s) x := by
  induction l with
  | nil => intro s _ x hx; cases hx
  | cons i t ih =>
    intro s hs x hx
    rw [List.foldl_cons]
    rcases List.mem_cons.mp hx with hxi | hxt
    · subst hxi
      exact foldl_topStep_keep t (topStep s x) x (topStep_inv s x hs) (topStep_new s x)
    · exact ih (topStep s i) (topStep_inv s i hs) x hxt

def exC4 : JFrogResult :=
  { Items := [mkItem "a" 4, mkItem "b" 5, mkItem "c" 1], Range := exRange }

/-- C4 counterexample: on input download counts [4,5,1] the count-4
item is evicted from top1 by the later maximum and lands in neither
final group, yet its count 4 is NOT strictly less than the final top2
shared count 1 (and top2 did not stay empty-equivalent). -/
theorem claim4_counterexample :
    getTopDownloads exC4 = ([mkItem "b" 5], [mkItem "c" 1]) ∧
      mkItem "a" 4 ∈ exC4.Items ∧
      mkItem "a" 4 ∉ [mkItem "b" 5] ∧
      mkItem "a" 4 ∉ [mkItem "c" 1] ∧
      getDownloads [mkItem "c" 1] = 1 ∧
      ¬ statDownloads (mkItem "a" 4) < getDownloads [mkItem "c" 1] := by
  decide

/-- C4 (amended): the members of the final top1 and top2 groups, apart
from the two seeded placeholders, form a sub-multiset of the input; and
every input item that ends up in neither group has a download count
strictly less than the final top1 shared count (not necessarily below
the final top2 count: items evicted from top1 can exceed it). -/
theorem claim4_theorem (results : JFrogResult)
    (h : ∀ i ∈ results.Items, i.Stats ≠ []) :
    ((getTopDownloads results).1 : Multiset JFrogItem) +
        ((getTopDownloads results).2 : Multiset JFrogItem)
      ≤ (results.Items : Multiset JFrogItem) +
          ([placeholderItem, placeholderItem] : Multiset JFrogItem) ∧
      ∀ x ∈ results.Items,
        x ∈ (getTopDownloads results).1 ∨ x ∈ (getTopDownloads results).2 ∨
          statDownloads x < getDownloads (getTopDownloads results).1 := by
  constructor
  · have hm := foldl_topStep_mass results.Items ([placeholderItem], [placeholderItem])
    refine le_trans hm (le_of_eq ?_)
    have hpp : (([placeholderItem] : List JFrogItem) : Multiset JFrogItem) +
        (([placeholderItem] : List JFrogItem) : Multiset JFrogItem) =
          (([placeholderItem, placeholderItem] : List JFrogItem) : Multiset JFrogItem) := by
      rw [Multiset.coe_add]
      rfl
    rw [hpp]
    abel
  · intro x hx
    have hinv : GroupsInv ([placeholderItem], [placeholderItem]) := by
      constructor <;>
        (intro y hy; rw [List.mem_singleton.mp hy]; exact le_refl _)
    exact foldl_topStep_all results.Items ([placeholderItem], [placeholderItem]) hinv x hx

def exC4w : JFrogResult :=
  { Items := [mkItem "a" 2, mkItem "b" 7, mkItem "c" 7, mkItem "d" 4], Range := exRange }

theorem claim4_witness :
    (∀ i ∈ exC4w.Items, i.Stats ≠ []) ∧
      (((getTopDownloads exC4w).1 : Multiset JFrogItem) +
          ((getTopDownloads exC4w).2 : Multiset JFrogItem)
        ≤ (exC4w.Items : Multiset JFrogItem) +
            ([placeholderItem, placeholderItem] : Multiset JFrogItem) ∧
        ∀ x ∈ exC4w.Items,
          x ∈ (getTopDownloads exC4w).1 ∨ x ∈ (getTopDownloads exC4w).2 ∨
            statDownloads x < getDownloads (getTopDownloads exC4w).1) :=
  ⟨by decide, claim4_theorem exC4w (by decide)⟩

/-- `strings.ToLower` as used by main.go's scanner: character-wise
lowercasing (ASCII range, `Char.toLower`), defined structurally so that
concrete configurations evaluate inside proofs. -/
def strToLower (s : String) : String := String.mk (s.data.map Char.toLower)

/-- Accumulator pass of `strings.Fields`. -/
def fieldsAux : List Char → List Char → List String
  | [], acc => if acc = [] then [] else [String.mk acc.reverse]
  | c :: cs, acc =>
    if c.isWhitespace then
      if acc = [] then fieldsAux cs [] else String.mk acc.reverse :: fieldsAux cs []
    else fieldsAux cs (c :: acc)

/-- `strings.Fields`: maximal whitespace-separated tokens of a line. -/
def fields (line : String) : List String := fieldsAux line.data []

/-- Scanner state inside `parseConfigFile`'s token loop (main.go lines
100-143): the configuration being filled, the armed flag `set`, and the
pending slot index `idx` (-1 when no slot is pending; 0 = api_host,
1 = api_key, 2 = api_json, matching the `ptr` array). -/
structure ScanSt where
  config : JFrogConfig
  set : Bool
  idx : Int
deriving DecidableEq, Repr

/-- One token of the configuration-file scan (the `switch` of main.go
lines 116-141): `api_host`/`api_key` arm their slot only while the
field is still empty, `api_json` arms its slot unconditionally, `=`
sets the armed flag, and any other token fills the pending slot when
the guard `(idx > -1 && idx < 3) && set` holds. -/
def scanWord (st : ScanSt) (w : String) : ScanSt :=
  if strToLower w = "api_host" then
    if st.config.api_host = "" then { st with idx := 0 } else st
  else if strToLower w = "api_key" then
    if st.config.api_key = "" then { st with idx := 1 } else st
  else if strToLower w = "api_json" then
    { st with idx := 2 }
  else if strToLower w = "=" then
    { st with set := true }
  else if st.idx > -1 ∧ st.idx < 3 ∧ st.set = true then
    if st.idx = 0 then
      { st with config := { st.config with api_host := w }, set := false, idx := -1 }
    else if st.idx = 1 then
      { st with config := { st.config with api_key := w }, set := false, idx := -1 }
    else
      { st with config := { st.config with api_json := w }, set := false, idx := -1 }
  else st

/-- One line of the scan: blank lines and `#`-comment lines are
skipped; the scanner state persists across lines. -/
def scanLine (st : ScanSt) (line : String) : ScanSt :=
  if line = "" ∨ line.data.headD ' ' = '#' then st
  else (fields line).foldl scanWord st

/-- The token scan of `parseConfigFile` (main.go lines 100-143) over
the file's lines, starting from the configuration already filled by the
command line. -/
def parseConfigFile (config : JFrogConfig) (lines : List String) : JFrogConfig :=
  (lines.foldl scanLine { config := config, set := false, idx := -1 }).config

/-- The fatal check of `parseConfigFile` before any file access
(main.go lines 85-96): a missing configuration path aborts. -/
def parseConfigFileGuard (config : JFrogConfig) : Except String Unit :=
  if config.api_conf = "" then
    Except.error "parseConfigFile: ERROR: No configuration specified"
  else Except.ok ()

/-- The fatal check of `getJFrogItems` before the request is built and
sent (main.go lines 211-217). -/
def getJFrogItemsGuard (config : JFrogConfig) : Except String Unit :=
  if config.api_host = "" ∨ config.api_key = "" then
    Except.error "getJFrogItems: ERROR: NULL host or api key"
  else Except.ok ()

lemma scanWord_host_stable (st : ScanSt) (w : String)
    (h1 : st.config.api_host ≠ "") (h2 : st.idx ≠ 0) :
    (scanWord st w).config.api_host = st.config.api_host ∧ (scanWord st w).idx ≠ 0 := by
  unfold scanWord
  split_ifs <;>
    first
    | exact ⟨rfl, h2⟩
    | (refine ⟨rfl, ?_⟩ ; decide)
    | simp_all

lemma scanWord_key_stable (st : ScanSt) (w : String)
    (h1 : st.config.api_key ≠ "") (h2 : st.idx ≠ 1) :
    (scanWord st w).config.api_key = st.config.api_key ∧ (scanWord st w).idx ≠ 1 := by
  unfold scanWord
  split_ifs <;>
    first
    | exact ⟨rfl, h2⟩
    | (refine ⟨rfl, ?_⟩ ; decide)
    | simp_all

lemma scanWord_hostInv (st : ScanSt) (w : String)
    (h : st.config.api_host ≠ "" → st.idx ≠ 0) :
    (scanWord st w).config.api_host ≠ "" → (scanWord st w).idx ≠ 0 := by
  unfold scanWord
  split_ifs <;> intro hne <;>
    first
    | exact h hne
    | decide
    | simp_all

lemma scanWord_keyInv (st : ScanSt) (w : String)
    (h : st.config.api_key ≠ "" → st.idx ≠ 1) :
    (scanWord st w).config.api_key ≠ "" → (scanWord st w).idx ≠ 1 := by
  unfold scanWord
  split_ifs <;> intro hne <;>
    first
    | exact h hne
    | decide
    | simp_all

lemma scanWords_host_stable (ws : List String) :
    ∀ st : ScanSt, st.config.api_host ≠ "" → st.idx ≠ 0 →
      (ws.foldl scanWord st).config.api_host = st.config.api_host ∧
        (ws.foldl scanWord st).idx ≠ 0 := by
  induction ws with
  | nil => intro st _ h2; exact ⟨rfl, h2⟩
  | cons w t ih =>
    intro st h1 h2
    rw [List.foldl_cons]
    obtain ⟨hw1, hw2⟩ := scanWord_host_stable st w h1 h2
    obtain ⟨ht1, ht2⟩ := ih (scanWord st w) (by rw [hw1]; exact h1) hw2
    exact ⟨by rw [ht1, hw1], ht2⟩

lemma scanWords_key_stable (ws : List String) :
    ∀ st : ScanSt, st.config.api_key ≠ "" → st.idx ≠ 1 →
      (ws.foldl scanWord st).config.api_key = st.config.api_key ∧
        (ws.foldl scanWord st).idx ≠ 1 := by
  induction ws with
  | nil => intro st _ h2; exact ⟨rfl, h2⟩
  | cons w t ih =>
    intro st h1 h2
    rw [List.foldl_cons]
    obtain ⟨hw1, hw2⟩ := scanWord_key_stable st w h1 h2
    obtain ⟨ht1, ht2⟩ := ih (scanWord st w) (by rw [hw1]; exact h1) hw2
    exact ⟨by rw [ht1, hw1], ht2⟩

lemma scanWords_hostInv (ws : List String) :
    ∀ st : ScanSt, (st.config.api_host ≠ "" → st.idx ≠ 0) →
      ((ws.foldl scanWord st).config.api_host ≠ "" → (ws.foldl scanWord st).idx ≠ 0) := by
  induction ws with
  | nil => intro st h; exact h
  | cons w t ih =>
    intro st h
    rw [List.foldl_cons]
    exact ih (scanWord st w) (scanWord_hostInv st w h)

lemma scanWords_keyInv (ws : List String) :
    ∀ st : ScanSt, (st.config.api_key ≠ "" → st.idx ≠ 1) →
      ((ws.foldl scanWord st).config.api_key ≠ "" → (ws.foldl scanWord st).idx ≠ 1) := by
  induction ws with
  | nil => intro st h; exact h
  | cons w t ih =>
    intro st h
    rw [List.foldl_cons]
    exact ih (scanWord st w) (scanWord_keyInv st w h)

lemma scanLine_host_stable (st : ScanSt) (line : String)
    (h1 : st.config.api_host ≠ "") (h2 : st.idx ≠ 0) :
    (scanLine st line).config.api_host = st.config.api_host ∧
      (scanLine st line).idx ≠ 0 := by
  unfold scanLine
  split_ifs
  · exact ⟨rfl, h2⟩
  · exact scanWords_host_stable (fields line) st h1 h2

lemma scanLine_key_stable (st : ScanSt) (line : String)
    (h1 : st.config.api_key ≠ "") (h2 : st.idx ≠ 1) :
    (scanLine st line).config.api_key = st.config.api_key ∧
      (scanLine st line).idx ≠ 1 := by
  unfold scanLine
  split_ifs
  · exact ⟨rfl, h2⟩
  · exact scanWords_key_stable (fields line) st h1 h2

lemma scanLine_hostInv (st : ScanSt) (line : String)
    (h : st.config.api_host ≠ "" → st.idx ≠ 0) :
    (scanLine st line).config.api_host ≠ "" → (scanLine st line).idx ≠ 0 := by
  unfold scanLine
  split_ifs
  · exact h
  · exact scanWords_hostInv (fields line) st h

lemma scanLine_keyInv (st : ScanSt) (line : String)
    (h : st.config.api_key ≠ "" → st.idx ≠ 1) :
    (scanLine st line).config.api_key ≠ "" → (scanLine st line).idx ≠ 1 := by
  unfold scanLine
  split_ifs
  · exact h
  · exact scanWords_keyInv (fields line) st h

lemma scanLines_host_stable (lines : List String) :
    ∀ st : ScanSt, st.config.api_host ≠ "" → st.idx ≠ 0 →
      (lines.foldl scanLine st).config.api_host = st.config.api_host ∧
        (lines.foldl scanLine st).idx ≠ 0 := by
  induction lines with
  | nil => intro st _ h2; exact ⟨rfl, h2⟩
  | cons ln t ih =>
    intro st h1 h2
    rw [List.foldl_cons]
    obtain ⟨hw1, hw2⟩ := scanLine_host_stable st ln h1 h2
    obtain ⟨ht1, ht2⟩ := ih (scanLine st ln) (by rw [hw1]; exact h1) hw2
    exact ⟨by rw [ht1, hw1], ht2⟩

lemma scanLines_key_stable (lines : List String) :
    ∀ st : ScanSt, st.config.api_key ≠ "" → st.idx ≠ 1 →
      (lines.foldl scanLine st).config.api_key = st.config.api_key ∧
        (lines.foldl scanLine st).idx ≠ 1 := by
  induction lines with
  | nil => intro st _ h2; exact ⟨rfl, h2⟩
  | cons ln t ih =>
    intro st h1 h2
    rw [List.foldl_cons]
    obtain ⟨hw1, hw2⟩ := scanLine_key_stable st ln h1 h2
    obtain ⟨ht1, ht2⟩ := ih (scanLine st ln) (by rw [hw1]; exact h1) hw2
    exact ⟨by rw [ht1, hw1], ht2⟩

lemma scanLines_hostInv (lines : List String) :
    ∀ st : ScanSt, (st.config.api_host ≠ "" → st.idx ≠ 0) →
      ((lines.foldl scanLine st).config.api_host ≠ "" →
        (lines.foldl scanLine st).idx ≠ 0) := by
  induction lines with
  | nil => intro st h; exact h
  | cons ln t ih =>
    intro st h
    rw [List.foldl_cons]
    exact ih (scanLine st ln) (scanLine_hostInv st ln h)

lemma scanLines_keyInv (lines : List String) :
    ∀ st : ScanSt, (st.config.api_key ≠ "" → st.idx ≠ 1) →
      ((lines.foldl scanLine st).config.api_key ≠ "" →
        (lines.foldl scanLine st).idx ≠ 1) := by
  induction lines with
  | nil => intro st h; exact h
  | cons ln t ih =>
    intro st h
    rw [List.foldl_cons]
    exact ih (scanLine st ln) (scanLine_keyInv st ln h)

lemma scanWord_api_json (st : ScanSt) :
    scanWord st "api_json" = { st with idx := 2 } := by
  unfold scanWord
  rw [if_neg (by decide), if_neg (by decide), if_pos (by decide)]

lemma scanWord_eq_tok (st : ScanSt) :
    scanWord st "=" = { st with set := true } := by
  unfold scanWord
  rw [if_neg (by decide), if_neg (by decide), if_neg (by decide), if_pos (by decide)]

lemma scanWord_value_json (st : ScanSt) (v : String)
    (h1 : strToLower v ≠ "api_host") (h2 : strToLower v ≠ "api_key")
    (h3 : strToLower v ≠ "api_json") (h4 : strToLower v ≠ "=")
    (hg : st.idx > -1 ∧ st.idx < 3 ∧ st.set = true) (hi : st.idx = 2) :
    scanWord st v =
      { st with config := { st.config with api_json := v }, set := false, idx := -1 } := by
  unfold scanWord
  rw [if_neg h1, if_neg h2, if_neg h3, if_neg h4, if_pos hg,
    if_neg (by rw [hi]; decide), if_neg (by rw [hi]; decide)]

/-- Any occurrence of the token triple `api_json = v` overwrites the
`api_json` field, whatever the current state: arming for the json slot
is unconditional. -/
lemma scanWords_json_last (ws : List String) (st : ScanSt) (v : String)
    (h1 : strToLower v ≠ "api_host") (h2 : strToLower v ≠ "api_key")
    (h3 : strToLower v ≠ "api_json") (h4 : strToLower v ≠ "=") :
    ((ws ++ ["api_json", "=", v]).foldl scanWord st).config.api_json = v := by
  rw [List.foldl_append]
  show (scanWord (scanWord (scanWord (ws.foldl scanWord st) "api_json") "=") v).config.api_json = v
  have hst2 : scanWord (scanWord (ws.foldl scanWord st) "api_json") "=" =
      { config := (ws.foldl scanWord st).config, set := true, idx := 2 } := by
    rw [scanWord_api_json, scanWord_eq_tok]
  rw [hst2]
  rw [scanWord_value_json { config := (ws.foldl scanWord st).config, set := true, idx := 2 }
    v h1 h2 h3 h4 ⟨show (2 : Int) > -1 by decide, show (2 : Int) < 3 by decide, rfl⟩ rfl]

def exCfg : JFrogConfig :=
  { api_conf := "jfrog.conf", api_host := "cliHost", api_key := "cliKey", api_json := "yes" }

/-- C2 counterexample: with the command line having supplied the
non-empty output-mode value `yes`, a configuration file containing
`api_json = no` makes the resolved output_mode `no` — the command-line
value does NOT win for this field. -/
theorem claim2_counterexample :
    exCfg.api_json = "yes" ∧
      (parseConfigFile exCfg ["api_json = no"]).api_json = "no" ∧
      (parseConfigFile exCfg ["api_json = no"]).api_json ≠ exCfg.api_json := by
  refine ⟨rfl, ?_, ?_⟩ <;> decide

/-- C2 (amended): for host and api_key the claimed precedence holds in
the form that a value present after scanning any line prefix — in
particular a non-empty command-line value (empty prefix) or the first
file assignment — is never overwritten by later lines; for output_mode
it fails: a later `api_json = off` line always forces the resolved
value to `off`, overriding any command-line value, so the last file
assignment wins for that field. -/
theorem claim2_theorem :
    (∀ (config : JFrogConfig) (l1 l2 : List String),
        (parseConfigFile config l1).api_host ≠ "" →
          (parseConfigFile config (l1 ++ l2)).api_host =
            (parseConfigFile config l1).api_host) ∧
      (∀ (config : JFrogConfig) (l1 l2 : List String),
        (parseConfigFile config l1).api_key ≠ "" →
          (parseConfigFile config (l1 ++ l2)).api_key =
            (parseConfigFile config l1).api_key) ∧
      (∀ (config : JFrogConfig) (lines : List String),
        (parseConfigFile config (lines ++ ["api_json = off"])).api_json = "off") := by
  refine ⟨?_, ?_, ?_⟩
  · intro config l1 l2 h
    unfold parseConfigFile at *
    rw [List.foldl_append]
    have hInv := scanLines_hostInv l1 { config := config, set := false, idx := -1 }
      (fun _ => show (-1 : Int) ≠ 0 by decide)
    exact (scanLines_host_stable l2 _ h (hInv h)).1
  · intro config l1 l2 h
    unfold parseConfigFile at *
    rw [List.foldl_append]
    have hInv := scanLines_keyInv l1 { config := config, set := false, idx := -1 }
      (fun _ => show (-1 : Int) ≠ 1 by decide)
    exact (scanLines_key_stable l2 _ h (hInv h)).1
  · intro config lines
    have hline : ∀ S : ScanSt, (scanLine S "api_json = off").config.api_json = "off" := by
      intro S
      unfold scanLine
      rw [if_neg (by decide)]
      have hf : fields "api_json = off" = ["api_json", "=", "off"] := by decide
      rw [hf]
      have h := scanWords_json_last [] S "off" (by decide) (by decide) (by decide) (by decide)
      simpa using h
    unfold parseConfigFile
    rw [List.foldl_append]
    exact hline _

def exCfgEmpty : JFrogConfig :=
  { api_conf := "jfrog.conf", api_host := "", api_key := "k", api_json := "" }

theorem claim2_witness :
    (parseConfigFile exCfgEmpty ["api_host = fileHost"]).api_host ≠ "" ∧
      (parseConfigFile exCfgEmpty (["api_host = fileHost"] ++ ["api_host = other"])).api_host =
        (parseConfigFile exCfgEmpty ["api_host = fileHost"]).api_host :=
  ⟨by decide,
    claim2_theorem.1 exCfgEmpty ["api_host = fileHost"] ["api_host = other"] (by decide)⟩

/-- C9: `api_host`/`api_key` tokens arm their slot only while the field
is still empty, so a value already set (by the command line or an
earlier file assignment) is never overwritten; the `api_json` token
arms its slot on every occurrence, so a final `api_json = v` token
triple always determines the resolved output-mode value, even over a
command-line `-json` value. -/
theorem claim9_theorem :
    (∀ (st : ScanSt) (w : String), st.config.api_host ≠ "" → st.idx ≠ 0 →
        (scanWord st w).config.api_host = st.config.api_host) ∧
      (∀ (st : ScanSt) (w : String), st.config.api_key ≠ "" → st.idx ≠ 1 →
        (scanWord st w).config.api_key = st.config.api_key) ∧
      (∀ st : ScanSt, (scanWord st "api_json").idx = 2) ∧
      (∀ (ws : List String) (st : ScanSt) (v : String),
        strToLower v ≠ "api_host" → strToLower v ≠ "api_key" →
          strToLower v ≠ "api_json" → strToLower v ≠ "=" →
            ((ws ++ ["api_json", "=", v]).foldl scanWord st).config.api_json = v) := by
  refine ⟨?_, ?_, ?_, ?_⟩
  · intro st w h1 h2
    exact (scanWord_host_stable st w h1 h2).1
  · intro st w h1 h2
    exact (scanWord_key_stable st w h1 h2).1
  · intro st
    rw [scanWord_api_json]
  · intro ws st v h1 h2 h3 h4
    exact scanWords_json_last ws st v h1 h2 h3 h4

def exSt : ScanSt := { config := exCfg, set := false, idx := -1 }

theorem claim9_witness :
    (exSt.config.api_host ≠ "" ∧ exSt.idx ≠ 0 ∧
        (scanWord exSt "api_host").config.api_host = exSt.config.api_host) ∧
      ((([] : List String) ++ ["api_json", "=", "no"]).foldl scanWord exSt).config.api_json
        = "no" :=
  ⟨⟨by decide, by decide, claim9_theorem.1 exSt "api_host" (by decide) (by decide)⟩,
    claim9_theorem.2.2.2 [] exSt "no" (by decide) (by decide) (by decide) (by decide)⟩

/-- C8: the run aborts before any file access or network request when
no configuration-file path was supplied, and aborts inside the fetcher
before the request is built when host or api key is still empty after
the merge; with a path and both credentials non-empty, neither check
aborts. -/
theorem claim8_theorem (config : JFrogConfig) :
    (parseConfigFileGuard config = Except.ok () ↔ config.api_conf ≠ "") ∧
      (getJFrogItemsGuard config = Except.ok () ↔
        config.api_host ≠ "" ∧ config.api_key ≠ "") := by
  constructor
  · unfold parseConfigFileGuard
    split_ifs with h
    · refine iff_of_false (by simp) ?_
      intro hne
      exact hne h
    · exact iff_of_true rfl h
  · unfold getJFrogItemsGuard
    split_ifs with h
    · refine iff_of_false (by simp) ?_
      rintro ⟨hh, hk⟩
      rcases h with h | h
      · exact hh h
      · exact hk h
    · push_neg at h
      exact iff_of_true rfl h

/-- The `%2d` formatting of the 1-based index in
`showTopDownloadsNormal`: right-justified, minimum width 2. -/
def fmt2 (n : Nat) : String := if n < 10 then " " ++ toString n else toString n

/-- The member lines printed for one group:
`fmt.Printf("%2d. %s\n", i+1, item.Name)` for every member —
including any synthetic placeholder present in the slice. -/
def showList (items : List JFrogItem) : String :=
  String.join (items.enum.map fun p => fmt2 (p.1 + 1) ++ ". " ++ p.2.Name ++ "\n")

/-- `showTopDownloadsNormal` (main.go lines 284-299): the exact text
written to standard output. -/
def showTopDownloadsNormal (top1 top2 : List JFrogItem) : String :=
  "Top Downloads #1 [" ++ toString (getDownloads top1) ++ "]:\n" ++
    "-------------------------------\n" ++
    showList top1 ++
    "\nTop Downloads #2 [" ++ toString (getDownloads top2) ++ "]\n" ++
    "-------------------------------\n" ++
    showList top2

/-- `showTopDownloadsJSON` (main.go lines 265-282): the document handed
to the JSON marshaller (the serialisation itself is an external
collaborator); both groups are wrapped as synthetic result sets whose
range has start 0 and end and total equal to the member count. -/
def showTopDownloadsJSON (top1 top2 : List JFrogItem) : JFrogTopResults :=
  { Top1 := { Items := top1, Range := ⟨0, top1.length, top1.length⟩ },
    Top2 := { Items := top2, Range := ⟨0, top2.length, top2.length⟩ } }

/-- What `showTopTwoDownloads` writes: either the marshalled document
or the plain text report. -/
inductive RenderOut where
  | json (doc : JFrogTopResults)
  | text (out : String)
deriving DecidableEq, Repr

/-- The `show_json` selection in `showTopTwoDownloads` (main.go lines
305-324). -/
def showJSONMode (api_json : String) : Bool :=
  if api_json ≠ "" then
    if strToLower api_json = "true" ∨ strToLower api_json = "yes" ∨
        strToLower api_json = "1"
    then true else false
  else false

/-- `showTopTwoDownloads` (main.go lines 305-324), with the channel
plumbing stripped: pick the renderer from the resolved configuration. -/
def showTopTwoDownloads (top1 top2 : List JFrogItem) (config : JFrogConfig) : RenderOut :=
  if showJSONMode config.api_json = true then
    RenderOut.json (showTopDownloadsJSON top1 top2)
  else
    RenderOut.text (showTopDownloadsNormal top1 top2)

lemma showJSONMode_iff (s : String) :
    showJSONMode s = true ↔
      (strToLower s = "true" ∨ strToLower s = "yes" ∨ strToLower s = "1") := by
  unfold showJSONMode
  split_ifs with h1 h2
  · exact iff_of_true rfl h2
  · exact iff_of_false (by simp) h2
  · have hs : s = "" := not_not.mp h1
    subst hs
    exact iff_of_false (by simp) (by decide)

/-- C7: the presenter emits JSON exactly when the resolved output_mode
value, lowercased, equals "true", "yes" or "1"; every other value,
the empty string included, yields the text rendering. -/
theorem claim7_theorem (top1 top2 : List JFrogItem) (config : JFrogConfig) :
    showTopTwoDownloads top1 top2 config =
      if strToLower config.api_json = "true" ∨ strToLower config.api_json = "yes" ∨
          strToLower config.api_json = "1"
      then RenderOut.json (showTopDownloadsJSON top1 top2)
      else RenderOut.text (showTopDownloadsNormal top1 top2) := by
  unfold showTopTwoDownloads
  by_cases hr : strToLower config.api_json = "true" ∨ strToLower config.api_json = "yes" ∨
      strToLower config.api_json = "1"
  · rw [if_pos ((showJSONMode_iff config.api_json).mpr hr), if_pos hr]
  · have hb : ¬ showJSONMode config.api_json = true :=
      fun hb => hr ((showJSONMode_iff config.api_json).mp hb)
    rw [if_neg hb, if_neg hr]

def exC3 : JFrogResult := { Items := [mkItem "gadget" 7], Range := exRange }

/-- C3 counterexample: for the single-item input with 7 downloads, the
final top2 group is exactly the synthetic placeholder, and both
renderers DO emit the placeholder as a member entry: the text output
ends with a numbered line for it (empty name), and the JSON document's
top_two has one item and range total 1 — not "no member entries". -/
theorem claim3_counterexample :
    getTopDownloads exC3 = ([mkItem "gadget" 7], [placeholderItem]) ∧
      showTopDownloadsNormal [mkItem "gadget" 7] [placeholderItem] =
        "Top Downloads #1 [7]:\n-------------------------------\n 1. gadget\n\nTop Downloads #2 [0]\n-------------------------------\n 1. \n" ∧
      (showTopDownloadsJSON [mkItem "gadget" 7] [placeholderItem]).Top2.Items ≠ [] ∧
      (showTopDownloadsJSON [mkItem "gadget" 7] [placeholderItem]).Top2.Range.Total = 1 := by
  refine ⟨by decide, by decide, by decide, by decide⟩

/-- C3 (amended): a placeholder-only top2 group is reported with shared
count 0, but the placeholder itself IS emitted as a member entry: the
text rendering appends one numbered line with an empty name, and the
JSON document carries the placeholder item with range total 1; for the
single-item input with 7 downloads, top1 is that one item and top2 is
the placeholder-only group. -/
theorem claim3_theorem (top1 : List JFrogItem) :
    showTopDownloadsNormal top1 [placeholderItem] =
      "Top Downloads #1 [" ++ toString (getDownloads top1) ++ "]:\n" ++
        "-------------------------------\n" ++
        showList top1 ++
        "\nTop Downloads #2 [" ++ toString 0 ++ "]\n" ++
        "-------------------------------\n" ++
        " 1. \n" ∧
      (showTopDownloadsJSON top1 [placeholderItem]).Top2 =
        { Items := [placeholderItem], Range := ⟨0, 1, 1⟩ } ∧
      getTopDownloads exC3 = ([mkItem "gadget" 7], [placeholderItem]) :=
  ⟨rfl, rfl, by decide⟩
